import Mathlib

/-!
# Verification of the BlockChain.js voting ledger

A shallow embedding of `src/BlockChain.js`: the canonical hashing of blocks
(`createHash`), chain validation (`validateChain`), the append path
(`addBlock`), the eligibility checks (`canUserVote`, the `/create_vote`
handler), the `/vote` handler and the `/chain` listing filter.  Asynchronous
handlers are modelled as pure state-passing functions on the block store
(a list of documents in insertion order); interleavings of concurrent
handlers are modelled by decomposing each handler at its `await` points.
-/

set_option maxRecDepth 40000

namespace BlockChainJs

/-! ## SHA-256 (model of Node's `crypto.createHash('sha256')...digest('hex')`)

Words are `Nat` reduced modulo `2^32` explicitly.  Messages are lists of
bytes (`Nat` below 256). -/

def w32 : Nat := 4294967296

def rotr (n x : Nat) : Nat := ((x >>> n) ||| (x <<< (32 - n))) % w32

def shaCh (x y z : Nat) : Nat := (x &&& y) ^^^ ((x ^^^ 4294967295) &&& z)

def shaMaj (x y z : Nat) : Nat := (x &&& y) ^^^ (x &&& z) ^^^ (y &&& z)

def bigSigma0 (x : Nat) : Nat := rotr 2 x ^^^ rotr 13 x ^^^ rotr 22 x

def bigSigma1 (x : Nat) : Nat := rotr 6 x ^^^ rotr 11 x ^^^ rotr 25 x

def smallSigma0 (x : Nat) : Nat := rotr 7 x ^^^ rotr 18 x ^^^ (x >>> 3)

def smallSigma1 (x : Nat) : Nat := rotr 17 x ^^^ rotr 19 x ^^^ (x >>> 10)

/-- The 64 round constants of FIPS 180-4 §4.2.2, written in decimal. -/
def shaK : List Nat :=
  [1116352408, 1899447441, 3049323471, 3921009573, 961987163,
   1508970993, 2453635748, 2870763221, 3624381080, 310598401,
   607225278, 1426881987, 1925078388, 2162078206, 2614888103,
   3248222580, 3835390401, 4022224774, 264347078, 604807628,
   770255983, 1249150122, 1555081692, 1996064986, 2554220882,
   2821834349, 2952996808, 3210313671, 3336571891, 3584528711,
   113926993, 338241895, 666307205, 773529912, 1294757372,
   1396182291, 1695183700, 1986661051, 2177026350, 2456956037,
   2730485921, 2820302411, 3259730800, 3345764771, 3516065817,
   3600352804, 4094571909, 275423344, 430227734, 506948616,
   659060556, 883997877, 958139571, 1322822218, 1537002063,
   1747873779, 1955562222, 2024104815, 2227730452, 2361852424,
   2428436474, 2756734187, 3204031479, 3329325298]

/-- The eight initial hash values of FIPS 180-4 §5.3.3, in decimal. -/
def shaH0 : List Nat :=
  [1779033703, 3144134277, 1013904242, 2773480762,
   1359893119, 2600822924, 528734635, 1541459225]

/-- Big-endian length field: `n` (a bit count) as 8 bytes. -/
def lenBytes (n : Nat) : List Nat :=
  (List.range 8).map fun i => (n >>> ((7 - i) * 8)) &&& 255

/-- SHA-256 padding: append `0x80`, zero bytes to 56 mod 64, then the
64-bit big-endian bit length. -/
def shaPad (msg : List Nat) : List Nat :=
  let len := msg.length
  let zeros := (64 - ((len + 9) % 64)) % 64
  msg ++ [128] ++ List.replicate zeros 0 ++ lenBytes (len * 8)

/-- Group bytes into big-endian 32-bit words. -/
def bytesToWords : List Nat → List Nat
  | b1 :: b2 :: b3 :: b4 :: rest =>
      (((b1 * 256 + b2) * 256 + b3) * 256 + b4) :: bytesToWords rest
  | _ => []

/-- Split a byte list into 64-byte chunks (fuel-indexed to keep the
recursion structural). -/
def chunksAux : Nat → List Nat → List (List Nat)
  | 0, _ => []
  | _, [] => []
  | Nat.succ fuel, l => l.take 64 :: chunksAux fuel (l.drop 64)

def chunks64 (l : List Nat) : List (List Nat) := chunksAux l.length l

/-- Extend the 16 message words to 64. -/
def msgSchedule (block16 : List Nat) : List Nat :=
  (List.range 48).foldl
    (fun w _ =>
      let n := w.length
      w ++ [(smallSigma1 (w.getD (n - 2) 0) + w.getD (n - 7) 0 +
             smallSigma0 (w.getD (n - 15) 0) + w.getD (n - 16) 0) % w32])
    block16

def compressRound (st : List Nat) (kw : Nat × Nat) : List Nat :=
  match st with
  | [a, b, c, d, e, f, g, h] =>
      let t1 := (h + bigSigma1 e + shaCh e f g + kw.1 + kw.2) % w32
      let t2 := (bigSigma0 a + shaMaj a b c) % w32
      [(t1 + t2) % w32, a, b, c, (d + t1) % w32, e, f, g]
  | other => other

def compressBlock (h : List Nat) (block : List Nat) : List Nat :=
  let w := msgSchedule (bytesToWords block)
  let st := (shaK.zip w).foldl compressRound h
  (h.zip st).map fun p => (p.1 + p.2) % w32

/-- SHA-256 of a byte list, as the list of 8 final 32-bit words. -/
def sha256Words (msg : List Nat) : List Nat :=
  (chunks64 (shaPad msg)).foldl compressBlock shaH0

def hexDigit (n : Nat) : Char :=
  if n < 10 then Char.ofNat (48 + n) else Char.ofNat (87 + n)

def wordHex (w : Nat) : String :=
  String.mk ((List.range 8).map fun i => hexDigit ((w >>> ((7 - i) * 4)) &&& 15))

/-- UTF-8 encoding of a code point (Node hashes strings as UTF-8). -/
def utf8Bytes (c : Nat) : List Nat :=
  if c < 0x80 then [c]
  else if c < 0x800 then
    [0xc0 ||| (c >>> 6), 0x80 ||| (c &&& 0x3f)]
  else if c < 0x10000 then
    [0xe0 ||| (c >>> 12), 0x80 ||| ((c >>> 6) &&& 0x3f), 0x80 ||| (c &&& 0x3f)]
  else
    [0xf0 ||| (c >>> 18), 0x80 ||| ((c >>> 12) &&& 0x3f),
     0x80 ||| ((c >>> 6) &&& 0x3f), 0x80 ||| (c &&& 0x3f)]

def strBytes (s : String) : List Nat := (s.data.map fun ch => utf8Bytes ch.toNat).flatten

/-- `crypto.createHash('sha256').update(s).digest('hex')`. -/
def sha256hex (s : String) : String :=
  String.join ((sha256Words (strBytes s)).map wordHex)

/-- Sanity: the model matches the standard SHA-256 test vector for "abc". -/
lemma sha256hex_abc :
    sha256hex "abc" = "ba7816bf8f01cfea414140de5dae2223b00361a396177a9cb410ff61f20015ad" := by
  decide

/-- Sanity: the model matches the standard SHA-256 digest of the empty string. -/
lemma sha256hex_empty :
    sha256hex "" = "e3b0c44298fc1c149afbf4c8996fb92427ae41e4649b934ca495991b7852b855" := by
  decide

/-! ## JavaScript values and `JSON.stringify`

A block document is a list of (field name, value) pairs in property
insertion order, mirroring a JS object (whose string-keyed properties
keep insertion order).  `Json.num` carries an `Int`; `Date` values are
modelled as their epoch-milliseconds number. -/

inductive Json where
  | str : String → Json
  | num : Int → Json
  | arr : List Json → Json
  | obj : List (String × Json) → Json

mutual

def decEqJson : (a b : Json) → Decidable (a = b)
  | .str x, .str y =>
      if h : x = y then .isTrue (by rw [h]) else .isFalse (by simp [h])
  | .num x, .num y =>
      if h : x = y then .isTrue (by rw [h]) else .isFalse (by simp [h])
  | .arr x, .arr y =>
      match decEqJsonList x y with
      | .isTrue h => .isTrue (by rw [h])
      | .isFalse h => .isFalse (by simp [h])
  | .obj x, .obj y =>
      match decEqJsonFields x y with
      | .isTrue h => .isTrue (by rw [h])
      | .isFalse h => .isFalse (by simp [h])
  | .str _, .num _ => .isFalse nofun
  | .str _, .arr _ => .isFalse nofun
  | .str _, .obj _ => .isFalse nofun
  | .num _, .str _ => .isFalse nofun
  | .num _, .arr _ => .isFalse nofun
  | .num _, .obj _ => .isFalse nofun
  | .arr _, .str _ => .isFalse nofun
  | .arr _, .num _ => .isFalse nofun
  | .arr _, .obj _ => .isFalse nofun
  | .obj _, .str _ => .isFalse nofun
  | .obj _, .num _ => .isFalse nofun
  | .obj _, .arr _ => .isFalse nofun

def decEqJsonList : (a b : List Json) → Decidable (a = b)
  | [], [] => .isTrue rfl
  | [], _ :: _ => .isFalse nofun
  | _ :: _, [] => .isFalse nofun
  | x :: xs, y :: ys =>
      match decEqJson x y, decEqJsonList xs ys with
      | .isTrue h1, .isTrue h2 => .isTrue (by rw [h1, h2])
      | .isFalse h1, _ => .isFalse (by simp [h1])
      | _, .isFalse h2 => .isFalse (by simp [h2])

def decEqJsonFields : (a b : List (String × Json)) → Decidable (a = b)
  | [], [] => .isTrue rfl
  | [], _ :: _ => .isFalse nofun
  | _ :: _, [] => .isFalse nofun
  | (k, v) :: xs, (k', v') :: ys =>
      if hk : k = k' then
        match decEqJson v v', decEqJsonFields xs ys with
        | .isTrue h1, .isTrue h2 => .isTrue (by rw [hk, h1, h2])
        | .isFalse h1, _ => .isFalse (by simp [h1])
        | _, .isFalse h2 => .isFalse (by simp [h2])
      else .isFalse (by simp [hk])

end

instance : DecidableEq Json := decEqJson

/-- A stored document / request payload: fields in insertion order. -/
abbrev Block := List (String × Json)

/-- JSON string escaping as in `JSON.stringify` (quote, backslash and
control characters; other characters are emitted verbatim). -/
def jsonEscapeChar (c : Char) : String :=
  if c = '"' then "\\\""
  else if c = '\\' then "\\\\"
  else if c = Char.ofNat 8 then "\\b"
  else if c = Char.ofNat 9 then "\\t"
  else if c = Char.ofNat 10 then "\\n"
  else if c = Char.ofNat 12 then "\\f"
  else if c = Char.ofNat 13 then "\\r"
  else if c.toNat < 32 then
    "\\u00" ++ String.mk [hexDigit (c.toNat / 16), hexDigit (c.toNat % 16)]
  else String.singleton c

def jsonEscape (s : String) : String := String.join (s.data.map jsonEscapeChar)

mutual

/-- `JSON.stringify` on our value model. -/
def stringifyJson : Json → String
  | .str s => "\"" ++ jsonEscape s ++ "\""
  | .num n => toString n
  | .arr xs => "[" ++ stringifyItems xs ++ "]"
  | .obj fs => "\x7b" ++ stringifyFields fs ++ "\x7d"

def stringifyItems : List Json → String
  | [] => ""
  | [x] => stringifyJson x
  | x :: y :: rest => stringifyJson x ++ "," ++ stringifyItems (y :: rest)

def stringifyFields : List (String × Json) → String
  | [] => ""
  | [kv] => "\"" ++ jsonEscape kv.1 ++ "\":" ++ stringifyJson kv.2
  | kv :: kv2 :: rest =>
      "\"" ++ jsonEscape kv.1 ++ "\":" ++ stringifyJson kv.2 ++ "," ++
        stringifyFields (kv2 :: rest)

end

/-- Property read `block[k]`: the first binding of `k`, or `none` for a JS
`undefined` (absent property). -/
def lookupField (b : Block) (k : String) : Option Json :=
  match b with
  | [] => none
  | (k', v) :: rest => if k' = k then some v else lookupField rest k

/-- Property write `block[k] = v`: replace the value in place if the key
exists, otherwise append the new property at the end (JS object insertion
order semantics). -/
def setField (b : Block) (k : String) (v : Json) : Block :=
  match b with
  | [] => [(k, v)]
  | (k', v') :: rest => if k' = k then (k, v) :: rest else (k', v') :: setField rest k v

/-! ## `createHash` and `isBlockValid` (src/BlockChain.js lines 47-66) -/

/-- `delete blockForHashing.hash; delete blockForHashing._id` — drop every
binding of the two excluded fields. -/
def removeHashId (b : Block) : Block :=
  b.filter fun kv => !(kv.1 = "hash" || kv.1 = "_id")

/-- Lexicographic comparison of strings by code point, as
`Array.prototype.sort()` compares the keys returned by `Object.keys`
(the field names here are ASCII, where UTF-16 code-unit order and
code-point order agree). -/
def charListLE : List Char → List Char → Bool
  | [], _ => true
  | _ :: _, [] => false
  | a :: as, b :: bs =>
      if a.toNat < b.toNat then true
      else if b.toNat < a.toNat then false
      else charListLE as bs

def strLE (a b : String) : Bool := charListLE a.data b.data

/-- Key ordering used by `Object.keys(blockForHashing).sort()`:
lexicographic on the field names (values ride along). -/
def fieldLE (kv kv' : String × Json) : Prop := strLE kv.1 kv'.1 = true

instance : DecidableRel fieldLE := fun kv kv' =>
  inferInstanceAs (Decidable (strLE kv.1 kv'.1 = true))

lemma charListLE_total (x y : List Char) :
    charListLE x y = true ∨ charListLE y x = true := by
  induction x generalizing y with
  | nil => exact Or.inl rfl
  | cons a as ih =>
    cases y with
    | nil => exact Or.inr rfl
    | cons b bs =>
      rcases Nat.lt_trichotomy a.toNat b.toNat with h | h | h
      · exact Or.inl (by simp [charListLE, h])
      · have hne : ¬ a.toNat < b.toNat := by omega
        have hne' : ¬ b.toNat < a.toNat := by omega
        rcases ih bs with hc | hc
        · exact Or.inl (by simp [charListLE, hne, hne', hc])
        · exact Or.inr (by simp [charListLE, hne, hne', hc])
      · exact Or.inr (by simp [charListLE, h])

lemma charListLE_trans {x y z : List Char} (h1 : charListLE x y = true)
    (h2 : charListLE y z = true) : charListLE x z = true := by
  induction x generalizing y z with
  | nil => rfl
  | cons a as ih =>
    cases y with
    | nil => simp [charListLE] at h1
    | cons b bs =>
      cases z with
      | nil => simp [charListLE] at h2
      | cons c cs =>
        by_cases hab : a.toNat < b.toNat
        · by_cases hbc : b.toNat < c.toNat
          · have hac : a.toNat < c.toNat := Nat.lt_trans hab hbc
            simp [charListLE, hac]
          · by_cases hcb : c.toNat < b.toNat
            · simp [charListLE, hbc, hcb] at h2
            · have hac : a.toNat < c.toNat := by omega
              simp [charListLE, hac]
        · by_cases hba : b.toNat < a.toNat
          · simp [charListLE, hab, hba] at h1
          · simp only [charListLE, if_neg hab, if_neg hba] at h1
            by_cases hbc : b.toNat < c.toNat
            · have hac : a.toNat < c.toNat := by omega
              simp [charListLE, hac]
            · by_cases hcb : c.toNat < b.toNat
              · simp [charListLE, hbc, hcb] at h2
              · simp only [charListLE, if_neg hbc, if_neg hcb] at h2
                have hac : ¬ a.toNat < c.toNat := by omega
                have hca : ¬ c.toNat < a.toNat := by omega
                simp only [charListLE, if_neg hac, if_neg hca]
                exact ih h1 h2

lemma char_toNat_inj {a b : Char} (h : a.toNat = b.toNat) : a = b := by
  have := Char.ofNat_toNat a
  rw [h, Char.ofNat_toNat] at this
  exact this.symm

lemma charListLE_antisymm {x y : List Char} (h1 : charListLE x y = true)
    (h2 : charListLE y x = true) : x = y := by
  induction x generalizing y with
  | nil =>
    cases y with
    | nil => rfl
    | cons b bs => simp [charListLE] at h2
  | cons a as ih =>
    cases y with
    | nil => simp [charListLE] at h1
    | cons b bs =>
      simp only [charListLE] at h1 h2
      rcases Nat.lt_trichotomy a.toNat b.toNat with hab | hab | hab
      · simp [hab, Nat.lt_asymm hab] at h2
      · have hne : ¬ a.toNat < b.toNat := by omega
        have hne' : ¬ b.toNat < a.toNat := by omega
        simp [hne, hne'] at h1 h2
        exact by rw [char_toNat_inj hab, ih h1 h2]
      · simp [hab, Nat.lt_asymm hab] at h1

lemma strLE_antisymm {a b : String} (h1 : strLE a b = true)
    (h2 : strLE b a = true) : a = b := by
  cases a; cases b
  exact congrArg String.mk (charListLE_antisymm h1 h2)

instance : IsTotal (String × Json) fieldLE := ⟨fun a b => charListLE_total a.1.data b.1.data⟩

instance : IsTrans (String × Json) fieldLE := ⟨fun _ _ _ h1 h2 => charListLE_trans h1 h2⟩

/-- Rebuilding `orderedBlock` with its keys sorted: since a JS object's
keys are distinct, this is the insertion-sort of the field list by key
(insertion order of equal keys cannot arise). -/
def sortFields (b : Block) : Block := List.insertionSort fieldLE b

/-- `createHash(block)` (lines 47-60): copy without `hash`/`_id`, sort the
keys, `JSON.stringify`, SHA-256 hex digest. -/
def createHash (b : Block) : String :=
  sha256hex (stringifyJson (Json.obj (sortFields (removeHashId b))))

/-- `isBlockValid(block)` (lines 63-66): `block.hash === createHash(block)`.
A missing or non-string `hash` property is `!==` any string. -/
def isBlockValid (b : Block) : Bool :=
  lookupField b "hash" = some (Json.str (createHash b))

/-! ## Chain validation (src/BlockChain.js lines 69-132)

`validateChain` reads the store sorted ascending by `creationDate` and
walks it.  The store is a `List Block` in insertion (natural) order; the
Mongo sort is modelled as a stable insertion sort on the `creationDate`
value (documents written by `addBlock` always carry a numeric
`creationDate`; a document without one is ordered as 0). -/

structure ValidationResult where
  valid : Bool
  message : String
  blockIndex : Option Nat := none
deriving DecidableEq

/-- `${block._id}` in a template literal (an absent `_id` prints as
`undefined`).  The model does not assign ObjectIds on insert, `_id` being
excluded from hashing and unused elsewhere. -/
def idString (b : Block) : String :=
  match lookupField b "_id" with
  | some (.str s) => s
  | some j => stringifyJson j
  | none => "undefined"

def msgEmptyChain : String := "Ланцюг порожній"

def msgValidChain : String := "Ланцюг валідний"

def msgFirstHash (b : Block) : String :=
  "Невалідний перший блок: " ++ idString b ++ ", хеш не відповідає вмісту"

def msgFirstGenesis (b : Block) : String :=
  "Невалідний перший блок: " ++ idString b ++ ", previousHash повинен бути \"0\""

def msgBlockHash (b : Block) : String :=
  "Невалідний блок: " ++ idString b ++ ", хеш не відповідає вмісту"

def msgBadLink (b : Block) : String :=
  "Невалідний ланцюг: блок " ++ idString b ++ " має неправильний попередній хеш"

/-- The `for` loop of `validateChain` (lines 102-125): `prevHash` is the
running `previousHash` variable (the previous block's `hash` property,
a JS value), `i` the loop index. -/
def validateLoop (prevHash : Option Json) (i : Nat) : List Block → ValidationResult
  | [] => ⟨true, msgValidChain, none⟩
  | b :: rest =>
      if !isBlockValid b then ⟨false, msgBlockHash b, some i⟩
      else if lookupField b "previousHash" ≠ prevHash then
        ⟨false, msgBadLink b, some i⟩
      else validateLoop (lookupField b "hash") (i + 1) rest

/-- `validateChain` on the already-ordered block sequence (lines 74-127). -/
def validateOrdered : List Block → ValidationResult
  | [] => ⟨true, msgEmptyChain, none⟩
  | first :: rest =>
      if !isBlockValid first then ⟨false, msgFirstHash first, some 0⟩
      else if lookupField first "previousHash" ≠ some (Json.str "0") then
        ⟨false, msgFirstGenesis first, some 0⟩
      else validateLoop (lookupField first "hash") 1 rest

/-- `creationDate` sort key of a stored document. -/
def dateOf (b : Block) : Int :=
  match lookupField b "creationDate" with
  | some (.num n) => n
  | _ => 0

def dateLE (b b' : Block) : Prop := dateOf b ≤ dateOf b'

instance : DecidableRel dateLE := fun b b' =>
  inferInstanceAs (Decidable (dateOf b ≤ dateOf b'))

instance : IsTotal Block dateLE := ⟨fun a b => le_total (dateOf a) (dateOf b)⟩

instance : IsTrans Block dateLE := ⟨fun _ _ _ h1 h2 => le_trans h1 h2⟩

/-- `blocksCollection.find({}).sort({ creationDate: 1 }).toArray()`. -/
def sortByCreation (store : List Block) : List Block := List.insertionSort dateLE store

def validateChain (store : List Block) : ValidationResult :=
  validateOrdered (sortByCreation store)

/-! ## `addBlock` (src/BlockChain.js lines 206-236) -/

structure AddResult where
  success : Bool
  block : Option Block := none
  error : Option String := none
  details : Option ValidationResult := none
deriving DecidableEq

def msgCorrupt : String := "Неможливо додати новий блок - ланцюг блоків пошкоджено"

/-- `lastBlock = findOne({}, { sort: { creationDate: -1 } })` followed by
`lastBlock ? lastBlock.hash : "0"`.  The descending-sort first document is
the ascending-sort last one.  Every block this code stores carries a
string `hash` (set by `addBlock`), so the `getD` default is never reached
on stores produced by the modelled operations. -/
def tailHash (store : List Block) : Json :=
  match (sortByCreation store).getLast? with
  | none => Json.str "0"
  | some lb => (lookupField lb "hash").getD (Json.str "")

/-- The read-and-compute phase of `addBlock`, up to (not including) the
`insertOne` call: validate the chain snapshot, link to the tail, stamp
`creationDate` with the current wall-clock time `now`, compute `hash`.
Returns `none` when the snapshot fails validation. -/
def prepareBlock (now : Int) (snapshot : List Block) (newBlock : Block) : Option Block :=
  if !(validateChain snapshot).valid then none
  else
    let b1 := setField newBlock "previousHash" (tailHash snapshot)
    let b2 := setField b1 "creationDate" (Json.num now)
    some (setField b2 "hash" (Json.str (createHash b2)))

/-- `insertOne`: an unconditional append to the store.  It carries no
condition on the current tail and cannot conflict. -/
def commitBlock (store : List Block) (b : Block) : Bool × List Block :=
  (true, store ++ [b])

def addBlock (now : Int) (store : List Block) (newBlock : Block) :
    AddResult × List Block :=
  let chainValidation := validateChain store
  if !chainValidation.valid then
    (⟨false, none, some msgCorrupt, some chainValidation⟩, store)
  else
    let b1 := setField newBlock "previousHash" (tailHash store)
    let b2 := setField b1 "creationDate" (Json.num now)
    let b3 := setField b2 "hash" (Json.str (createHash b2))
    (⟨true, some b3, none, none⟩, store ++ [b3])

/-- `addBlock` is its read phase followed by its commit phase; the phases
are separated by `await` points in the source, so a concurrent request
can run between them. -/
lemma addBlock_eq_phases (now : Int) (store : List Block) (newBlock : Block) :
    addBlock now store newBlock =
      match prepareBlock now store newBlock with
      | none => (⟨false, none, some msgCorrupt, some (validateChain store)⟩, store)
      | some b => (⟨true, some b, none, none⟩, (commitBlock store b).2) := by
  unfold addBlock prepareBlock commitBlock
  by_cases h : (validateChain store).valid <;> simp [h]

/-- Two `addBlock` calls racing on the same snapshot: both read phases see
`store`, then the commits run one after the other (the interleaving in
which both `find`/`validate` reads complete before either `insertOne`). -/
def raceAppend (now1 now2 : Int) (store : List Block) (p1 p2 : Block) :
    (Bool × Bool) × List Block :=
  match prepareBlock now1 store p1, prepareBlock now2 store p2 with
  | some b1, some b2 =>
      let r1 := commitBlock store b1
      let r2 := commitBlock r1.2 b2
      ((r1.1, r2.1), r2.2)
  | some b1, none =>
      let r1 := commitBlock store b1
      ((r1.1, false), r1.2)
  | none, some b2 =>
      let r2 := commitBlock store b2
      ((false, r2.1), r2.2)
  | none, none => ((false, false), store)

/-! ## Eligibility checks (src/BlockChain.js lines 135-203)

`getUserRole` resolves a user id against the external users collection,
falling back to the auth server's API; both paths yield a user record or
`null`.  It is modelled by its result: `Option UserInfo`, `none` standing
for any resolution failure (user not found, database error, API error). -/

structure UserInfo where
  userId : String
  status : String
  groupId : String
deriving DecidableEq

structure VoteCheck where
  canVote : Bool
  message : Option String := none
  voteBlock : Option Block := none
deriving DecidableEq

/-- Predicate of `findOne({ voterId: userId, voteId, type: "vote" })`. -/
def isBallotFor (userId voteId : String) (b : Block) : Bool :=
  lookupField b "voterId" == some (Json.str userId) &&
  lookupField b "voteId" == some (Json.str voteId) &&
  lookupField b "type" == some (Json.str "vote")

/-- Predicate of `findOne({ voteId, type: "create_vote" })`. -/
def isVoteDefFor (voteId : String) (b : Block) : Bool :=
  lookupField b "voteId" == some (Json.str voteId) &&
  lookupField b "type" == some (Json.str "create_vote")

def msgAdminCant : String := "Адміністратори не можуть брати участь у голосуванні"

def msgAlready : String := "Ви вже віддали голос за це голосування"

def msgNoVote : String := "Таке голосування не існує"

def msgClosed : String := "Голосування вже закінчилося"

/-- `new Date(voteBlock.endDate) < now` (line 194): numeric comparison of
instants; a missing or non-numeric `endDate` yields `NaN`, and every
comparison with `NaN` is false, so such a vote is never reported closed. -/
def voteEnded (vb : Block) (now : Int) : Bool :=
  match lookupField vb "endDate" with
  | some (Json.num d) => decide (d < now)
  | _ => false

/-- `canUserVote(userId, voteId)` (lines 173-203) with the identity
resolution outcome and the current time passed explicitly. -/
def canUserVote (userInfo : Option UserInfo) (now : Int) (store : List Block)
    (userId voteId : String) : VoteCheck :=
  if (match userInfo with | some u => u.status == "admin" | none => false) then
    ⟨false, some msgAdminCant, none⟩
  else
    match store.find? (isBallotFor userId voteId) with
    | some _ => ⟨false, some msgAlready, none⟩
    | none =>
        match store.find? (isVoteDefFor voteId) with
        | none => ⟨false, some msgNoVote, none⟩
        | some voteBlock =>
            if voteEnded voteBlock now then ⟨false, some msgClosed, none⟩
            else ⟨true, none, some voteBlock⟩

/-! ## HTTP handlers (src/BlockChain.js lines 239-265, 304-410)

Responses are modelled as a status code plus the message/error string of
the JSON body.  JS falsiness of absent/empty request fields is modelled
by the empty string. -/

structure HttpResponse where
  status : Nat
  body : String
deriving DecidableEq

def msgMissingVote : String := "Не вистачає даних для голосування"

def msgBadCandidate : String := "Невалідний варіант для голосування"

def msgVoteSaved : String := "Голос збережено"

def msgServerVote : String := "Помилка при збереженні голосу"

/-- The `/vote` handler body after its `canUserVote` call (lines 381-405).
`voteCheck.voteBlock.options.includes(candidate)` throws on a vote block
without an array `options` (caught by the handler's `try` as a 500); the
`voteBlock = none` case likewise models the TypeError path. -/
def voteHandlerAfterCheck (voteCheck : VoteCheck) (now : Int) (store : List Block)
    (voterId voteId candidate : String) : HttpResponse × List Block :=
  if !voteCheck.canVote then
    (⟨403, voteCheck.message.getD ""⟩, store)
  else
    match voteCheck.voteBlock with
    | none => (⟨500, msgServerVote⟩, store)
    | some vb =>
        match lookupField vb "options" with
        | some (Json.arr opts) =>
            if opts.contains (Json.str candidate) then
              let newVoteBlock : Block :=
                [("type", Json.str "vote"), ("voterId", Json.str voterId),
                 ("voteId", Json.str voteId), ("candidate", Json.str candidate)]
              let result := addBlock now store newVoteBlock
              if result.1.success then (⟨200, msgVoteSaved⟩, result.2)
              else (⟨500, (result.1.error).getD ""⟩, result.2)
            else (⟨400, msgBadCandidate⟩, store)
        | _ => (⟨500, msgServerVote⟩, store)

/-- `app.post('/vote')` (lines 371-410). -/
def voteHandler (userInfo : Option UserInfo) (now : Int) (store : List Block)
    (voterId voteId candidate : String) : HttpResponse × List Block :=
  if voterId == "" || voteId == "" || candidate == "" then
    (⟨400, msgMissingVote⟩, store)
  else
    voteHandlerAfterCheck (canUserVote userInfo now store voterId voteId)
      now store voterId voteId candidate

/-- Two `/vote` requests racing: both `canUserVote` reads see the same
`store`, then the two continuations (each ending in `addBlock`'s
`insertOne`) run one after the other — the interleaving in which the
second request's eligibility check completes before the first request's
insert.  Body-field presence checks are elided (the parameters are
non-empty in every use below). -/
def raceVoteHandlers (info1 info2 : Option UserInfo) (now : Int) (store : List Block)
    (voter1 voter2 voteId cand1 cand2 : String) :
    (HttpResponse × HttpResponse) × List Block :=
  let c1 := canUserVote info1 now store voter1 voteId
  let c2 := canUserVote info2 now store voter2 voteId
  let r1 := voteHandlerAfterCheck c1 now store voter1 voteId cand1
  let r2 := voteHandlerAfterCheck c2 now r1.2 voter2 voteId cand2
  ((r1.1, r2.1), r2.2)

def countBallots (store : List Block) (userId voteId : String) : Nat :=
  (store.filter (isBallotFor userId voteId)).length

structure CreateVoteParams where
  voteId : String
  title : String
  description : String
  options : List String
  creatorId : String
  endDate : Option Int := none
  groupIds : Option (List String) := none
deriving DecidableEq

def msgMissingCreate : String := "Не вистачає даних для створення голосування"

def msgOnlyAdmins : String := "Тільки адміністратори можуть створювати голосування"

def msgVoteExists : String := "Це голосування вже існує"

def msgEndDateFuture : String := "Дата завершення повинна бути в майбутньому"

def msgVoteCreated : String := "Голосування створено"

/-- The default voting window, `setDate(getDate() + 30)`, modelled as 30
days of milliseconds (calendar-length variation is irrelevant to the
claims below, which pass explicit end dates). -/
def thirtyDaysMs : Int := 2592000000

/-- `app.post('/create_vote')` (lines 304-368), with the identity
resolution outcome and the current time passed explicitly.  A request
whose `options` is absent or not an array is modelled by the empty list
(both fail the same guard). -/
def createVoteHandler (userInfo : Option UserInfo) (now : Int) (store : List Block)
    (p : CreateVoteParams) : HttpResponse × List Block :=
  if p.voteId == "" || p.title == "" || p.description == "" || p.creatorId == "" ||
      p.options.isEmpty then
    (⟨400, msgMissingCreate⟩, store)
  else if !(match userInfo with | some u => u.status == "admin" | none => false) then
    (⟨403, msgOnlyAdmins⟩, store)
  else
    match store.find? (isVoteDefFor p.voteId) with
    | some _ => (⟨400, msgVoteExists⟩, store)
    | none =>
        let finalEndDate : Option Int :=
          match p.endDate with
          | some d => if d ≤ now then none else some d
          | none => some (now + thirtyDaysMs)
        match finalEndDate with
        | none => (⟨400, msgEndDateFuture⟩, store)
        | some d =>
            let voteGroupIds := match p.groupIds with
              | some (g :: gs) => g :: gs
              | _ => ["all"]
            let newVoteBlock : Block :=
              [("type", Json.str "create_vote"), ("voteId", Json.str p.voteId),
               ("creatorId", Json.str p.creatorId), ("endDate", Json.num d),
               ("title", Json.str p.title), ("description", Json.str p.description),
               ("options", Json.arr (p.options.map Json.str)),
               ("groupIds", Json.arr (voteGroupIds.map Json.str))]
            let result := addBlock now store newVoteBlock
            if result.1.success then (⟨200, msgVoteCreated⟩, result.2)
            else (⟨500, (result.1.error).getD ""⟩, result.2)

/-- `app.get('/chain')` (lines 239-265).  `if (!userGroupId)` treats both
an absent and an empty `groupId` query parameter as "no filter". -/
def chainHandler (groupId : Option String) (store : List Block) : List Block :=
  match groupId with
  | none => store
  | some g =>
      if g == "" then store
      else
        store.filter fun b =>
          if lookupField b "type" != some (Json.str "create_vote") then true
          else
            match lookupField b "groupIds" with
            | some (Json.arr xs) =>
                xs.contains (Json.str "all") || xs.contains (Json.str g)
            | _ => false

/-- Sequential chain construction: fold `addBlock` over a list of
(wall-clock time, payload) steps starting from the empty store. -/
def buildChain (steps : List (Int × Block)) : List Block :=
  steps.foldl (fun s tp => (addBlock tp.1 s tp.2).2) []

/-! ## Helper lemmas on field access -/

lemma lookupField_setField_self (b : Block) (k : String) (v : Json) :
    lookupField (setField b k v) k = some v := by
  induction b with
  | nil => simp [setField, lookupField]
  | cons kv rest ih =>
    obtain ⟨k', v'⟩ := kv
    by_cases h : k' = k
    · simp [setField, h, lookupField]
    · simp [setField, h, lookupField, ih]

lemma lookupField_setField_ne (b : Block) (k k' : String) (v : Json) (h : k' ≠ k) :
    lookupField (setField b k v) k' = lookupField b k' := by
  induction b with
  | nil => simp [setField, lookupField, Ne.symm h]
  | cons kv rest ih =>
    obtain ⟨k0, v0⟩ := kv
    by_cases h0 : k0 = k
    · subst h0
      simp [setField, lookupField, Ne.symm h, h]
    · by_cases h1 : k0 = k'
      · simp [setField, h0, lookupField, h1, h]
      · simp [setField, h0, lookupField, h1, h, ih]

/-- Setting `hash` does not change the content that `createHash` hashes
(the copy drops every `hash`/`_id` binding first). -/
lemma removeHashId_setField_hash (b : Block) (v : Json) :
    removeHashId (setField b "hash" v) = removeHashId b := by
  induction b with
  | nil => simp [setField, removeHashId]
  | cons kv rest ih =>
    obtain ⟨k0, v0⟩ := kv
    by_cases h0 : k0 = "hash"
    · subst h0
      simp [setField, removeHashId, List.filter_cons]
    · simp only [setField, if_neg h0]
      simp only [removeHashId, List.filter_cons] at ih ⊢
      simp only [Bool.not_or] at ih
      by_cases h1 : k0 = "_id"
      · simp [h0, h1, ih]
      · simp [h0, h1, ih]

lemma createHash_setField_hash (b : Block) (v : Json) :
    createHash (setField b "hash" v) = createHash b := by
  unfold createHash
  rw [removeHashId_setField_hash]

/-- A block prepared by `addBlock` carries a correct hash. -/
lemma isBlockValid_prepared (b : Block) :
    isBlockValid (setField b "hash" (Json.str (createHash b))) = true := by
  simp [isBlockValid, lookupField_setField_self, createHash_setField_hash]

/-! ## The Chain Validator algorithm as §4.3 of the spec states it

`specValidate` is written from the spec's words, to be compared with the
source translation `validateOrdered`: the empty sequence is trivially
valid; the first entry is checked for I1 (content hash) then I2 (genesis
link); each subsequent entry is checked for I1 then I3 against the
previous *entry* (rather than the source's running `previousHash`
variable), returning the first failing index with a reason that
distinguishes the failed check. -/

def specValidateLoop (prev : Block) (i : Nat) : List Block → ValidationResult
  | [] => ⟨true, msgValidChain, none⟩
  | b :: rest =>
      if !isBlockValid b then ⟨false, msgBlockHash b, some i⟩
      else if lookupField b "previousHash" ≠ lookupField prev "hash" then
        ⟨false, msgBadLink b, some i⟩
      else specValidateLoop b (i + 1) rest

def specValidate : List Block → ValidationResult
  | [] => ⟨true, msgEmptyChain, none⟩
  | first :: rest =>
      if !isBlockValid first then ⟨false, msgFirstHash first, some 0⟩
      else if lookupField first "previousHash" ≠ some (Json.str "0") then
        ⟨false, msgFirstGenesis first, some 0⟩
      else specValidateLoop first 1 rest

/-- Invariant I3 linkage between consecutive entries. -/
def linkedTo (a b : Block) : Prop :=
  lookupField b "previousHash" = lookupField a "hash"

/-- The declarative reading: every entry passes I1, the first entry passes
I2, and consecutive entries are linked (I3). -/
def ChainSpecValid (bs : List Block) : Prop :=
  (∀ b ∈ bs, isBlockValid b = true) ∧
  (∀ first ∈ bs.head?, lookupField first "previousHash" = some (Json.str "0")) ∧
  List.Chain' linkedTo bs

lemma validateLoop_eq_spec (prev : Block) (i : Nat) (rest : List Block) :
    validateLoop (lookupField prev "hash") i rest = specValidateLoop prev i rest := by
  induction rest generalizing prev i with
  | nil => rfl
  | cons b r ih =>
    simp only [validateLoop, specValidateLoop]
    by_cases h1 : isBlockValid b
    · by_cases h2 : lookupField b "previousHash" = lookupField prev "hash"
      · simp [h1, h2, ih b (i + 1)]
      · simp [h1, h2]
    · simp [h1]

lemma validateOrdered_eq_spec (bs : List Block) :
    validateOrdered bs = specValidate bs := by
  cases bs with
  | nil => rfl
  | cons first rest =>
    simp only [validateOrdered, specValidate]
    by_cases h1 : isBlockValid first
    · by_cases h2 : lookupField first "previousHash" = some (Json.str "0")
      · simp [h1, h2, validateLoop_eq_spec first 1 rest]
      · simp [h1, h2]
    · simp [h1]

lemma specValidateLoop_valid_iff (prev : Block) (i : Nat) (rest : List Block) :
    (specValidateLoop prev i rest).valid = true ↔
      (∀ b ∈ rest, isBlockValid b = true) ∧ List.Chain' linkedTo (prev :: rest) := by
  induction rest generalizing prev i with
  | nil => simp [specValidateLoop]
  | cons b r ih =>
    simp only [specValidateLoop]
    by_cases h1 : isBlockValid b
    · by_cases h2 : lookupField b "previousHash" = lookupField prev "hash"
      · simp only [h1, h2]
        rw [if_neg (by simp), if_neg (by simp [h2])]
        rw [ih b (i + 1)]
        constructor
        · rintro ⟨ha, hc⟩
          exact ⟨by simpa [h1] using ha, by
            rw [List.chain'_cons]
            exact ⟨h2, hc⟩⟩
        · rintro ⟨ha, hc⟩
          rw [List.chain'_cons] at hc
          exact ⟨fun x hx => ha x (List.mem_cons_of_mem _ hx), hc.2⟩
      · rw [if_neg (by simp [h1]), if_pos (by simp [h2])]
        simp only [List.chain'_cons]
        constructor
        · intro h; cases h
        · rintro ⟨-, hl, -⟩; exact absurd hl h2
    · rw [if_pos (by simp [h1])]
      constructor
      · intro h; cases h
      · rintro ⟨ha, -⟩
        exact absurd (ha b (List.mem_cons_self b r)) (by simp [h1])

lemma validateOrdered_valid_iff (bs : List Block) :
    (validateOrdered bs).valid = true ↔ ChainSpecValid bs := by
  rw [validateOrdered_eq_spec]
  cases bs with
  | nil => simp [specValidate, ChainSpecValid]
  | cons first rest =>
    simp only [specValidate]
    by_cases h1 : isBlockValid first
    · by_cases h2 : lookupField first "previousHash" = some (Json.str "0")
      · rw [if_neg (by simp [h1]), if_neg (by simp [h2])]
        rw [specValidateLoop_valid_iff]
        unfold ChainSpecValid
        simp only [List.head?_cons, Option.mem_def, Option.some.injEq]
        constructor
        · rintro ⟨ha, hc⟩
          refine ⟨?_, ?_, hc⟩
          · intro b hb
            rcases List.mem_cons.mp hb with rfl | hb
            · exact h1
            · exact ha b hb
          · rintro f rfl; exact h2
        · rintro ⟨ha, -, hc⟩
          exact ⟨fun b hb => ha b (List.mem_cons_of_mem _ hb), hc⟩
      · rw [if_neg (by simp [h1]), if_pos (by simp [h2])]
        unfold ChainSpecValid
        simp only [List.head?_cons]
        constructor
        · intro h; cases h
        · rintro ⟨-, hg, -⟩
          exact absurd (hg first rfl) h2
    · rw [if_pos (by simp [h1])]
      unfold ChainSpecValid
      constructor
      · intro h; cases h
      · rintro ⟨ha, -, -⟩
        exact absurd (ha first (List.mem_cons_self _ _)) (by simp [h1])

/-- The two hash-mismatch reasons and the two linkage reasons are pairwise
distinguishable (their fixed parts have different lengths, whatever the
`_id` rendering). -/
lemma msgFirst_distinct (b : Block) : msgFirstHash b ≠ msgFirstGenesis b := by
  intro h
  have h2 := congrArg String.length h
  simp only [msgFirstHash, msgFirstGenesis, String.length_append] at h2
  have hne : (", хеш не відповідає вмісту").length ≠
      (", previousHash повинен бути \"0\"").length := by decide
  omega

lemma msgLoop_distinct (b : Block) : msgBlockHash b ≠ msgBadLink b := by
  intro h
  have h2 := congrArg String.length h
  simp only [msgBlockHash, msgBadLink, String.length_append] at h2
  have hne : ("Невалідний блок: ").length + (", хеш не відповідає вмісту").length ≠
      ("Невалідний ланцюг: блок ").length + (" має неправильний попередній хеш").length := by
    decide
  omega

/-- C4: For every ordered sequence of entries, the chain validator returns
valid on the empty sequence; otherwise it checks I1 (hash equals digest of
canonical content) and I2 (`previousHash` is the genesis sentinel "0") on
the first entry, returning invalid with index 0 and a reason
distinguishing content/hash mismatch from bad genesis link; then for each
subsequent entry it checks I1 and I3 (`previousHash` equals the previous
entry's hash), returning invalid at the first failing index with a reason
distinguishing hash mismatch from broken linkage; it returns valid only if
every entry passes.  Formally: the source validator coincides with the
spec's algorithm `specValidate`, its verdict is the declarative
`ChainSpecValid`, and the reasons for the two checks are distinct for
every entry. -/
theorem C4_validator_follows_spec (bs : List Block) :
    validateOrdered bs = specValidate bs ∧
      ((validateOrdered bs).valid = true ↔ ChainSpecValid bs) ∧
      (∀ b : Block, msgFirstHash b ≠ msgFirstGenesis b ∧ msgBlockHash b ≠ msgBadLink b) :=
  ⟨validateOrdered_eq_spec bs, validateOrdered_valid_iff bs,
    fun b => ⟨msgFirst_distinct b, msgLoop_distinct b⟩⟩

/-! ## Sequential chain building (claim C7) -/

lemma sortByCreation_sorted_eq {s : List Block} (h : List.Sorted dateLE s) :
    sortByCreation s = s :=
  h.insertionSort_eq

lemma validateChain_of_good {s : List Block} (hs : List.Sorted dateLE s)
    (hv : ChainSpecValid s) : (validateChain s).valid = true := by
  unfold validateChain
  rw [sortByCreation_sorted_eq hs]
  exact (validateOrdered_valid_iff s).mpr hv

/-- The invariant maintained along a sequential build: the store satisfies
I1-I3, is sorted on `creationDate`, and all its timestamps are at most
`t`. -/
def GoodChain (s : List Block) (t : Int) : Prop :=
  ChainSpecValid s ∧ List.Sorted dateLE s ∧ ∀ b ∈ s, dateOf b ≤ t

lemma lookupField_prepared_prevHash (p : Block) (pv : Json) (t1 : Int) :
    lookupField
      (setField (setField (setField p "previousHash" pv) "creationDate" (Json.num t1))
        "hash" (Json.str (createHash (setField (setField p "previousHash" pv)
          "creationDate" (Json.num t1)))))
      "previousHash" = some pv := by
  rw [lookupField_setField_ne _ _ _ _ (by decide),
    lookupField_setField_ne _ _ _ _ (by decide),
    lookupField_setField_self]

lemma dateOf_prepared (p : Block) (pv : Json) (t1 : Int) :
    dateOf
      (setField (setField (setField p "previousHash" pv) "creationDate" (Json.num t1))
        "hash" (Json.str (createHash (setField (setField p "previousHash" pv)
          "creationDate" (Json.num t1))))) = t1 := by
  unfold dateOf
  rw [lookupField_setField_ne _ _ _ _ (by decide), lookupField_setField_self]

lemma addBlock_preserves_good {s : List Block} {t : Int} (t1 : Int) (p : Block)
    (hg : GoodChain s t) (ht : t ≤ t1) :
    GoodChain (addBlock t1 s p).2 t1 := by
  obtain ⟨hv, hs, hd⟩ := hg
  have hvalid : (validateChain s).valid = true := validateChain_of_good hs hv
  have hsort : sortByCreation s = s := sortByCreation_sorted_eq hs
  set b1 := setField p "previousHash" (tailHash s) with hb1
  set b2 := setField b1 "creationDate" (Json.num t1) with hb2
  set b3 := setField b2 "hash" (Json.str (createHash b2)) with hb3
  have hstore : (addBlock t1 s p).2 = s ++ [b3] := by
    unfold addBlock
    simp [hvalid]
  rw [hstore]
  have hb3valid : isBlockValid b3 = true := isBlockValid_prepared b2
  have hb3prev : lookupField b3 "previousHash" = some (tailHash s) :=
    lookupField_prepared_prevHash p (tailHash s) t1
  have hb3date : dateOf b3 = t1 := dateOf_prepared p (tailHash s) t1
  refine ⟨⟨?_, ?_, ?_⟩, ?_, ?_⟩
  · intro b hb
    rcases List.mem_append.mp hb with hb | hb
    · exact hv.1 b hb
    · rcases List.mem_singleton.mp hb with rfl
      exact hb3valid
  · intro first hfirst
    cases s with
    | nil =>
      simp only [List.nil_append, List.head?_cons, Option.mem_def,
        Option.some.injEq] at hfirst
      subst hfirst
      rw [hb3prev]
      unfold tailHash
      simp [sortByCreation, List.insertionSort]
    | cons a rest =>
      simp only [List.cons_append, List.head?_cons, Option.mem_def,
        Option.some.injEq] at hfirst
      subst hfirst
      exact hv.2.1 _ rfl
  · rw [List.chain'_append]
    refine ⟨hv.2.2, List.chain'_singleton b3, ?_⟩
    intro x hx y hy
    simp only [List.head?_cons, Option.mem_def, Option.some.injEq] at hy
    subst hy
    have hxs : x ∈ s := List.mem_of_mem_getLast? hx
    have hxvalid : isBlockValid x = true := hv.1 x hxs
    have hxhash : lookupField x "hash" = some (Json.str (createHash x)) := by
      simpa [isBlockValid] using hxvalid
    have htail : tailHash s = Json.str (createHash x) := by
      unfold tailHash
      rw [hsort, show s.getLast? = some x from hx]
      simp [hxhash]
    unfold linkedTo
    rw [hb3prev, htail, hxhash]
  · show List.Pairwise dateLE (s ++ [b3])
    rw [List.pairwise_append]
    refine ⟨hs, List.pairwise_singleton _ _, ?_⟩
    intro a ha y hy
    rcases List.mem_singleton.mp hy with rfl
    unfold dateLE
    rw [hb3date]
    exact le_trans (hd a ha) ht
  · intro b hb
    rcases List.mem_append.mp hb with hb | hb
    · exact le_trans (hd b hb) ht
    · rcases List.mem_singleton.mp hb with rfl
      rw [hb3date]

lemma foldl_addBlock_good :
    ∀ (steps : List (Int × Block)) (s : List Block) (t : Int),
      GoodChain s t →
      List.Chain' (· < ·) (t :: steps.map Prod.fst) →
      ∃ t', GoodChain (steps.foldl (fun acc tp => (addBlock tp.1 acc tp.2).2) s) t'
  | [], s, t, hg, _ => ⟨t, hg⟩
  | (t1, p) :: rest, s, t, hg, hc => by
    simp only [List.map_cons, List.chain'_cons] at hc
    obtain ⟨ht, hc⟩ := hc
    have hg1 : GoodChain (addBlock t1 s p).2 t1 :=
      addBlock_preserves_good t1 p hg (le_of_lt ht)
    simpa using foldl_addBlock_good rest (addBlock t1 s p).2 t1 hg1 hc

/-! ## Sample data used by concrete witnesses and counterexamples -/

/-- A vote-definition payload, shaped as `/create_vote` builds it. -/
def sampleVoteDef : Block :=
  [("type", Json.str "create_vote"), ("voteId", Json.str "v1"),
   ("creatorId", Json.str "a1"), ("endDate", Json.num 1000),
   ("title", Json.str "T"), ("description", Json.str "D"),
   ("options", Json.arr [Json.str "A", Json.str "B"]),
   ("groupIds", Json.arr [Json.str "all"])]

/-- A ballot payload, shaped as `/vote` builds it. -/
def sampleBallot : Block :=
  [("type", Json.str "vote"), ("voterId", Json.str "u1"),
   ("voteId", Json.str "v1"), ("candidate", Json.str "A")]

def adminU : UserInfo := ⟨"a1", "admin", "g1"⟩

def userU : UserInfo := ⟨"u1", "user", "g1"⟩

def cvParams : CreateVoteParams :=
  { voteId := "v1", title := "T", description := "D", options := ["A", "B"],
    creatorId := "a1", endDate := some 1000, groupIds := none }

/-- A store reached from the empty store by one `/create_vote` request of
an admin at time 10 (vote "v1", options A/B, endDate 1000). -/
def store1 : List Block := (createVoteHandler (some adminU) 10 [] cvParams).2

/-! ## C7: round-trip validity of sequential appends -/

/-- C7 counterexample: the claim says a chain built purely by sequential
append-engine calls from the empty store *always* validates.  The chain
order is the wall-clock `creationDate`, so when the clock steps backwards
between two appends (5, then 3) the stored order and the hash linkage
disagree and the validator rejects the store. -/
theorem C7_counterexample :
    (validateChain (buildChain [(5, sampleVoteDef), (3, sampleBallot)])).valid = false := by
  decide

/-- C7 (amended): a chain built purely by sequential append-engine calls
starting from the empty store passes the chain validator, provided the
wall-clock instants of successive appends strictly increase. -/
theorem C7_sequential_roundtrip (steps : List (Int × Block))
    (hinc : List.Chain' (fun a b : Int => a < b) (steps.map Prod.fst)) :
    (validateChain (buildChain steps)).valid = true := by
  cases steps with
  | nil => rfl
  | cons step rest =>
    obtain ⟨t1, p⟩ := step
    have hgood : GoodChain [] (t1 - 1) :=
      ⟨⟨by simp, by simp, List.chain'_nil⟩, List.sorted_nil, by simp⟩
    have hchain : List.Chain' (· < ·) ((t1 - 1) :: ((t1, p) :: rest).map Prod.fst) := by
      simp only [List.map_cons, List.chain'_cons]
      exact ⟨by omega, by simpa using hinc⟩
    obtain ⟨t', hv, hs, -⟩ :=
      foldl_addBlock_good ((t1, p) :: rest) [] (t1 - 1) hgood hchain
    exact validateChain_of_good hs hv

/-- Witness for C7: two sequential appends at strictly increasing times
(5 then 7) yield a store the validator accepts. -/
theorem C7_sequential_roundtrip_witness :
    (validateChain (buildChain [(5, sampleVoteDef), (7, sampleBallot)])).valid = true :=
  C7_sequential_roundtrip [(5, sampleVoteDef), (7, sampleBallot)] (by
    simp only [List.map_cons, List.map_nil]
    exact List.chain'_cons.mpr ⟨by norm_num, List.chain'_singleton _⟩)

/-! ## C9: failure on corrupted snapshot, no partial writes -/

/-- C9: an append whose snapshot fails validation returns the
chain-corrupted error carrying the validator's diagnosis and leaves the
store unchanged; in general every append either leaves the store
unchanged or appends exactly one new entry (reported as the success
block). -/
theorem C9_no_partial_writes (now : Int) (store : List Block) (p : Block) :
    ((validateChain store).valid = false →
      addBlock now store p =
        (⟨false, none, some msgCorrupt, some (validateChain store)⟩, store)) ∧
      ((addBlock now store p).2 = store ∨
        ∃ b, (addBlock now store p).1 = ⟨true, some b, none, none⟩ ∧
          (addBlock now store p).2 = store ++ [b]) := by
  constructor
  · intro hbad
    unfold addBlock
    simp [hbad]
  · by_cases hv : (validateChain store).valid
    · right
      refine ⟨setField (setField (setField p "previousHash" (tailHash store))
        "creationDate" (Json.num now)) "hash"
        (Json.str (createHash (setField (setField p "previousHash" (tailHash store))
          "creationDate" (Json.num now)))), ?_, ?_⟩ <;>
        (unfold addBlock; simp [hv])
    · left
      unfold addBlock
      simp [Bool.of_not_eq_true hv]

/-- A one-document store whose `hash` field does not match its content. -/
def badStore : List Block := [[("type", Json.str "x"), ("hash", Json.str "bad")]]

/-- Witness for C9: on the corrupted one-block store, `addBlock` fails
with the chain-corrupted error, the validator's diagnosis attached, and
the store is unchanged. -/
theorem C9_no_partial_writes_witness :
    (validateChain badStore).valid = false ∧
      addBlock 0 badStore sampleBallot =
        (⟨false, none, some msgCorrupt, some (validateChain badStore)⟩, badStore) :=
  ⟨by decide, (C9_no_partial_writes 0 badStore sampleBallot).1 (by decide)⟩

/-! ## C1: the commit is unconditional; racing appends both succeed -/

/-- C1 counterexample: two append operations race against the same (empty)
chain tail; the claim says at most one commit may succeed in extending
that tail.  In the interleaving where both read phases see the same
snapshot, *both* commits succeed and both stored entries extend the same
tail (`previousHash = "0"`); nothing retries and no `AppendConflict`
exists. -/
theorem C1_counterexample :
    (raceAppend 10 10 [] sampleVoteDef sampleBallot).1 = (true, true) ∧
      (raceAppend 10 10 [] sampleVoteDef sampleBallot).2.map
          (fun b => lookupField b "previousHash") =
        [some (Json.str "0"), some (Json.str "0")] := by
  decide

/-- C1 (amended): the append engine's commit (`insertOne`) is
unconditional — it carries no condition on the store's tail, never
retries and has no `AppendConflict` outcome — so whenever two appends race
from the same snapshot, both commits succeed and both new entries record
the same snapshot tail as their `previousHash`. -/
theorem C1_unconditional_commit (now1 now2 : Int) (store : List Block)
    (p1 p2 b1 b2 : Block)
    (h1 : prepareBlock now1 store p1 = some b1)
    (h2 : prepareBlock now2 store p2 = some b2) :
    raceAppend now1 now2 store p1 p2 = ((true, true), store ++ [b1, b2]) ∧
      lookupField b1 "previousHash" = some (tailHash store) ∧
      lookupField b2 "previousHash" = some (tailHash store) := by
  have hprev : ∀ (n : Int) (p b : Block), prepareBlock n store p = some b →
      lookupField b "previousHash" = some (tailHash store) := by
    intro n p b h
    unfold prepareBlock at h
    by_cases hv : (validateChain store).valid
    · simp only [hv, Bool.not_true, Option.some.injEq, if_neg (show ¬ false = true by simp)] at h
      rw [← h]
      exact lookupField_prepared_prevHash p (tailHash store) n
    · simp [Bool.of_not_eq_true hv] at h
  refine ⟨?_, hprev now1 p1 b1 h1, hprev now2 p2 b2 h2⟩
  unfold raceAppend
  rw [h1, h2]
  simp [commitBlock]

/-! ## C6: hash determinism and field-order independence -/

/-- Two key-sorted field lists that are permutations of each other with
distinct keys are equal. -/
lemma eq_of_perm_sorted_nodupkeys :
    ∀ (l1 l2 : List (String × Json)), l1.Perm l2 → (l1.map Prod.fst).Nodup →
      List.Sorted fieldLE l1 → List.Sorted fieldLE l2 → l1 = l2
  | [], l2, hp, _, _, _ => hp.nil_eq
  | a :: t1, l2, hp, hn, hs1, hs2 => by
    cases l2 with
    | nil => exact absurd hp.eq_nil (by simp)
    | cons b t2 =>
      have hab : a = b := by
        have hamem : a ∈ b :: t2 := hp.subset (List.mem_cons_self a t1)
        rcases List.mem_cons.mp hamem with h | hat2
        · exact h
        · have hbmem : b ∈ a :: t1 := hp.symm.subset (List.mem_cons_self b t2)
          rcases List.mem_cons.mp hbmem with h | hbt1
          · exact h.symm
          · have h1 : fieldLE a b := List.rel_of_sorted_cons hs1 b hbt1
            have h2 : fieldLE b a := List.rel_of_sorted_cons hs2 a hat2
            have hk : a.1 = b.1 := strLE_antisymm h1 h2
            exfalso
            have hmem : a.1 ∈ t1.map Prod.fst := by
              rw [hk]
              exact List.mem_map_of_mem Prod.fst hbt1
            simp only [List.map_cons, List.nodup_cons] at hn
            exact hn.1 hmem
      subst hab
      have hn' : (t1.map Prod.fst).Nodup := by
        simp only [List.map_cons, List.nodup_cons] at hn
        exact hn.2
      rw [eq_of_perm_sorted_nodupkeys t1 t2 hp.cons_inv hn' hs1.of_cons hs2.of_cons]

lemma sortFields_perm_eq {b b' : Block} (hp : b.Perm b')
    (hn : (b.map Prod.fst).Nodup) :
    sortFields (removeHashId b) = sortFields (removeHashId b') := by
  have hr : (removeHashId b).Perm (removeHashId b') := hp.filter _
  have hn1 : ((removeHashId b).map Prod.fst).Nodup :=
    hn.sublist ((List.filter_sublist b).map Prod.fst)
  apply eq_of_perm_sorted_nodupkeys
  · exact ((List.perm_insertionSort fieldLE _).trans hr).trans
      (List.perm_insertionSort fieldLE _).symm
  · exact (((List.perm_insertionSort fieldLE _).map Prod.fst).nodup_iff).mpr hn1
  · exact List.sorted_insertionSort fieldLE _
  · exact List.sorted_insertionSort fieldLE _

/-- C6 (amended): `hash(E)` is deterministic and independent of the
insertion order of E's *top-level* fields: the canonicalizer drops `hash`
and `_id`, sorts the top-level field names, and serializes; sequences keep
their own order.  Nested object fields, however, are *not*
order-normalized (only the top level is sorted) — see the counterexample. -/
theorem C6_toplevel_order_independence (b b' : Block) (hp : b.Perm b')
    (hn : (b.map Prod.fst).Nodup) : createHash b = createHash b' := by
  unfold createHash
  rw [sortFields_perm_eq hp hn]

/-- Witness for C6: reordering the two top-level fields of a document
leaves its hash unchanged. -/
theorem C6_toplevel_order_independence_witness :
    createHash [("b", Json.num 2), ("a", Json.str "x")] =
      createHash [("a", Json.str "x"), ("b", Json.num 2)] :=
  C6_toplevel_order_independence _ _ (List.Perm.swap _ _ []) (by decide)

/-- C6 counterexample: the claim says object/map-like fields *including
nested ones* are order-normalized before serialization.  They are not:
only the top-level keys are sorted, so two documents whose only
difference is the insertion order inside a nested object — a permutation,
hence equal logical content — hash differently. -/
theorem C6_counterexample :
    List.Perm [("a", Json.num 1), ("b", Json.num 2)]
        [("b", Json.num 2), ("a", Json.num 1)] ∧
      createHash [("type", Json.str "x"),
          ("meta", Json.obj [("a", Json.num 1), ("b", Json.num 2)])] ≠
        createHash [("type", Json.str "x"),
          ("meta", Json.obj [("b", Json.num 2), ("a", Json.num 1)])] := by
  exact ⟨List.Perm.swap _ _ [], by decide⟩

/-! ## C3: behaviour on identity-resolution failure -/

/-- C3 counterexample: the claim says a failed role resolution denies
*both* privileged actions.  For ballot casting it does not: with the
resolver returning no role (`none`), a `/vote` request against the
reachable store `store1` (one open vote, no prior ballot) succeeds with
status 200 and persists the ballot — resolution failure is treated like a
non-admin role and the request proceeds. -/
theorem C3_counterexample :
    (voteHandler none 20 store1 "u1" "v1" "A").1.status = 200 ∧
      countBallots (voteHandler none 20 store1 "u1" "v1" "A").2 "u1" "v1" = 1 := by
  decide

/-- C3 (amended): on identity-resolution failure, vote *creation* fails
closed — with a complete request body, `/create_vote` answers 403 and
leaves the store unchanged — while the ballot-casting eligibility check
treats the failure exactly like a resolved non-admin role and proceeds
with the remaining checks. -/
theorem C3_create_fails_closed (now : Int) (store : List Block)
    (p : CreateVoteParams) (u v : String)
    (hv1 : p.voteId ≠ "") (hv2 : p.title ≠ "") (hv3 : p.description ≠ "")
    (hv4 : p.creatorId ≠ "") (hv5 : p.options ≠ []) :
    createVoteHandler none now store p = (⟨403, msgOnlyAdmins⟩, store) ∧
      canUserVote none now store u v =
        canUserVote (some ⟨u, "user", ""⟩) now store u v := by
  constructor
  · unfold createVoteHandler
    simp [hv1, hv2, hv3, hv4, hv5]
  · rfl

/-- Witness for C3: the complete request `cvParams` with an unresolved
role is rejected with 403 on the empty store, and the unresolved-role
ballot check coincides with the plain-user check on `store1`. -/
theorem C3_create_fails_closed_witness :
    createVoteHandler none 10 [] cvParams = (⟨403, msgOnlyAdmins⟩, []) ∧
      canUserVote none 20 [] "u9" "v1" =
        canUserVote (some ⟨"u9", "user", ""⟩) 20 [] "u9" "v1" :=
  C3_create_fails_closed 10 [] cvParams "u9" "v1" (by decide) (by decide)
    (by decide) (by decide) (by decide)

/-! ## C2: uniqueness is advisory, not atomic -/

/-- C2 counterexample: the claim says at most one `Ballot` per
(`voterId`, `voteId`) exists in every reachable state because uniqueness
is enforced atomically at commit.  It is not: starting from the reachable
store `store1`, two `/vote` requests by the same user interleaved at the
handler's await points (both eligibility checks before either insert)
both answer 200, and the resulting store carries two ballots for
("u1", "v1"). -/
theorem C2_counterexample :
    countBallots (raceVoteHandlers (some userU) (some userU) 20 store1
        "u1" "u1" "v1" "A" "B").2 "u1" "v1" = 2 ∧
      (raceVoteHandlers (some userU) (some userU) 20 store1
          "u1" "u1" "v1" "A" "B").1.1.status = 200 ∧
      (raceVoteHandlers (some userU) (some userU) 20 store1
          "u1" "u1" "v1" "A" "B").1.2.status = 200 := by
  decide

/-- C2 (amended): the (`voterId`, `voteId`) uniqueness of ballots is
enforced only by the advisory `findOne` check before commit — in a
sequential (non-interleaved) execution a `/vote` request for a pair that
already has a ballot is rejected and the store is unchanged — while the
commit itself (`insertOne`) is unconditional and enforces nothing, which
is what lets the interleaved counterexample commit a duplicate. -/
theorem C2_advisory_uniqueness (info : Option UserInfo) (now : Int)
    (store : List Block) (u v cand : String)
    (h : ∃ b ∈ store, isBallotFor u v b = true) :
    (voteHandler info now store u v cand).1.status ≠ 200 ∧
      (voteHandler info now store u v cand).2 = store ∧
      ∀ (s : List Block) (b : Block), commitBlock s b = (true, s ++ [b]) := by
  have hfind : (store.find? (isBallotFor u v)).isSome := by
    rw [List.find?_isSome]
    obtain ⟨b, hb, hpb⟩ := h
    exact ⟨b, hb, hpb⟩
  obtain ⟨w, hw⟩ := Option.isSome_iff_exists.mp hfind
  have hmain : (voteHandler info now store u v cand).1.status ≠ 200 ∧
      (voteHandler info now store u v cand).2 = store := by
    unfold voteHandler
    by_cases he : (u == "" || v == "" || cand == "") = true
    · rw [if_pos he]
      refine ⟨?_, rfl⟩
      show (400 : Nat) ≠ 200
      omega
    · rw [if_neg he]
      unfold voteHandlerAfterCheck canUserVote
      by_cases hadm : (match info with
        | some i => i.status == "admin" | none => false) = true
      · rw [if_pos hadm]
        refine ⟨?_, rfl⟩
        show (403 : Nat) ≠ 200
        omega
      · rw [if_neg hadm, hw]
        refine ⟨?_, rfl⟩
        show (403 : Nat) ≠ 200
        omega
  exact ⟨hmain.1, hmain.2, fun s b => rfl⟩

/-- The reachable store holding the vote "v1" and one ballot by "u1". -/
def store2 : List Block := (voteHandler (some userU) 20 store1 "u1" "v1" "A").2

/-- Witness for C2: on `store2` (vote "v1", one ballot by "u1"), a second
sequential `/vote` by "u1" is rejected and changes nothing. -/
theorem C2_advisory_uniqueness_witness :
    ((voteHandler (some userU) 25 store2 "u1" "v1" "B").1.status ≠ 200 ∧
      (voteHandler (some userU) 25 store2 "u1" "v1" "B").2 = store2 ∧
      ∀ (s : List Block) (b : Block), commitBlock s b = (true, s ++ [b])) :=
  C2_advisory_uniqueness (some userU) 25 store2 "u1" "v1" "B" (by decide)

/-! ## C5: the ordering key is the wall clock -/

/-- The store reached by two sequential appends both at wall-clock time 5. -/
def twoAt5 : List Block := buildChain [(5, sampleVoteDef), (5, sampleBallot)]

/-- C5 counterexample: the claim says the ordering key is a strictly
increasing store-assigned logical clock, distinct from wall-clock time,
under which no two entries are ambiguously ordered.  In fact the only
ordering key is `creationDate`, assigned from the wall clock: two appends
in the same millisecond receive the *same* key, and both the store order
and its reverse are then "sorted" — the order of the two distinct entries
is ambiguous. -/
theorem C5_counterexample :
    twoAt5.map dateOf = [5, 5] ∧
      sortByCreation twoAt5 = twoAt5 ∧
      sortByCreation twoAt5.reverse = twoAt5.reverse ∧
      twoAt5.head? ≠ twoAt5.getLast? := by
  decide

/-- C5 (amended): the ordering key of an entry is its `creationDate`,
which the append engine assigns from the wall clock (`new Date()`, the
`now` argument here); chain validation orders entries by this key
(`validateChain` sorts by `creationDate`), and the committed entry is
appended with exactly the wall-clock key — so the key is only as strictly
increasing as the wall clock itself. -/
theorem C5_wallclock_ordering_key (now : Int) (store : List Block) (p : Block)
    (h : (validateChain store).valid = true) :
    dateOf ((addBlock now store p).1.block.getD []) = now ∧
      (addBlock now store p).2 = store ++ [(addBlock now store p).1.block.getD []] ∧
      validateChain store = validateOrdered (sortByCreation store) := by
  refine ⟨?_, ?_, rfl⟩ <;>
    (unfold addBlock; simp [h, dateOf_prepared])

/-- Witness for C5: appending to the empty store at time 5 stores an
entry whose ordering key is 5. -/
theorem C5_wallclock_ordering_key_witness :
    dateOf ((addBlock 5 [] sampleBallot).1.block.getD []) = 5 ∧
      (addBlock 5 [] sampleBallot).2 =
        [] ++ [(addBlock 5 [] sampleBallot).1.block.getD []] ∧
      validateChain [] = validateOrdered (sortByCreation []) :=
  C5_wallclock_ordering_key 5 [] sampleBallot (by decide)

/-- The block prepared by the first racer of the C1 witness. -/
def cb1 : Block := (prepareBlock 10 [] sampleVoteDef).getD []

/-- The block prepared by the second racer of the C1 witness. -/
def cb2 : Block := (prepareBlock 11 [] sampleBallot).getD []

/-- Witness for C1: on the empty store, racing appends at times 10 and 11
both succeed and both link to the genesis tail. -/
theorem C1_unconditional_commit_witness :
    raceAppend 10 11 [] sampleVoteDef sampleBallot = ((true, true), [] ++ [cb1, cb2]) ∧
      lookupField cb1 "previousHash" = some (tailHash []) ∧
      lookupField cb2 "previousHash" = some (tailHash []) :=
  C1_unconditional_commit 10 11 [] sampleVoteDef sampleBallot cb1 cb2
    (by decide) (by decide)

/-! ## C8: the voting-window boundary -/

/-- C8 counterexample: the claim says a ballot request at exactly
`endDate` is rejected with `VoteClosed`.  The code tests
`endDate < now` strictly, so on `store1` (vote "v1", `endDate` 1000) a
request at `now = 1000` passes the eligibility check. -/
theorem C8_counterexample :
    (canUserVote (some userU) 1000 store1 "u9" "v1").canVote = true := by
  decide

/-- C8 (amended): against an existing vote definition (no admin role, no
prior ballot), the check fails with `VoteClosed` iff the current time is
*strictly after* `endDate`; at or before `endDate` — including exactly at
the boundary — it succeeds and returns the definition. -/
theorem C8_close_is_strict (info : Option UserInfo) (now d : Int)
    (store : List Block) (u v : String) (vb : Block)
    (hadm : (match info with
      | some i => i.status == "admin" | none => false) = false)
    (hnoball : store.find? (isBallotFor u v) = none)
    (hvb : store.find? (isVoteDefFor v) = some vb)
    (hend : lookupField vb "endDate" = some (Json.num d)) :
    (d < now → canUserVote info now store u v = ⟨false, some msgClosed, none⟩) ∧
      (¬ d < now → canUserVote info now store u v = ⟨true, none, some vb⟩) := by
  unfold canUserVote
  rw [if_neg (by simp [hadm]), hnoball, hvb]
  constructor <;> intro hlt <;> simp [voteEnded, hend, hlt]

/-- The vote definition stored in `store1`. -/
def storedVoteDef : Block := (store1.find? (isVoteDefFor "v1")).getD []

/-- Witness for C8: at `now = 1000`, exactly the stored `endDate`, the
check succeeds. -/
theorem C8_close_is_strict_witness :
    ¬ (1000 : Int) < 1000 ∧
      canUserVote (some userU) 1000 store1 "u9" "v1" =
        ⟨true, none, some storedVoteDef⟩ :=
  ⟨by omega,
    (C8_close_is_strict (some userU) 1000 1000 store1 "u9" "v1" storedVoteDef
      (by decide) (by decide) (by decide) (by decide)).2 (by omega)⟩

/-! ## C10: the `/chain` group filter -/

/-- A vote-definition document for group "g1" only. -/
def cvG1 : Block :=
  [("type", Json.str "create_vote"), ("voteId", Json.str "v9"),
   ("groupIds", Json.arr [Json.str "g1"])]

/-- C10 counterexample: the claim says that whenever a `groupId` is
supplied, a `create_vote` entry is included iff its `groupIds` contains
"all" or that groupId.  Supplying the *empty* `groupId` (a present but
empty query parameter, falsy in JS) disables the filter entirely: the
"g1"-only definition is returned although its `groupIds` contains neither
"all" nor "". -/
theorem C10_counterexample :
    chainHandler (some "") [cvG1] = [cvG1] ∧
      lookupField cvG1 "type" = some (Json.str "create_vote") ∧
      lookupField cvG1 "groupIds" = some (Json.arr [Json.str "g1"]) ∧
      ¬ (Json.str "all" ∈ [Json.str "g1"] ∨ Json.str "" ∈ [Json.str "g1"]) := by
  decide

lemma chainFilterPred_iff (g : String) (b : Block) :
    ((if lookupField b "type" != some (Json.str "create_vote") then true
      else
        match lookupField b "groupIds" with
        | some (Json.arr xs) =>
            xs.contains (Json.str "all") || xs.contains (Json.str g)
        | _ => false) = true) ↔
      (lookupField b "type" ≠ some (Json.str "create_vote") ∨
        ∃ xs, lookupField b "groupIds" = some (Json.arr xs) ∧
          (Json.str "all" ∈ xs ∨ Json.str g ∈ xs)) := by
  by_cases htype : lookupField b "type" = some (Json.str "create_vote")
  · rw [if_neg (by simp [htype])]
    cases hlo : lookupField b "groupIds" with
    | none => simp [htype, hlo]
    | some j =>
      cases j with
      | str s => simp [htype, hlo]
      | num n => simp [htype, hlo]
      | obj fs => simp [htype, hlo]
      | arr xs =>
        simp only [htype, hlo, Bool.or_eq_true, List.contains_iff_exists_mem_beq,
          beq_iff_eq]
        constructor
        · rintro (⟨x, hx, rfl⟩ | ⟨x, hx, rfl⟩)
          · exact Or.inr ⟨xs, rfl, Or.inl hx⟩
          · exact Or.inr ⟨xs, rfl, Or.inr hx⟩
        · rintro (h | ⟨xs', hxs', h⟩)
          · exact absurd rfl h
          · rcases hxs' with rfl | _
            · rcases h with h | h
              · exact Or.inl ⟨_, h, rfl⟩
              · exact Or.inr ⟨_, h, rfl⟩
  · rw [if_pos (by simp [htype])]
    simp [htype]

/-- C10 (amended): when a *non-empty* `groupId` is supplied, an entry is
returned iff it is stored and either its type is not `create_vote` or its
`groupIds` is an array containing "all" or the caller's groupId; when the
`groupId` is absent — or supplied but empty, which JS treats as falsy —
all entries are returned unfiltered. -/
theorem C10_group_filter (g : String) (store : List Block) (b : Block)
    (hg : g ≠ "") :
    (b ∈ chainHandler (some g) store ↔
      b ∈ store ∧ (lookupField b "type" ≠ some (Json.str "create_vote") ∨
        ∃ xs, lookupField b "groupIds" = some (Json.arr xs) ∧
          (Json.str "all" ∈ xs ∨ Json.str g ∈ xs))) ∧
      chainHandler none store = store ∧
      chainHandler (some "") store = store := by
  refine ⟨?_, rfl, by simp [chainHandler]⟩
  simp only [chainHandler]
  rw [if_neg (by simp [hg])]
  rw [List.mem_filter]
  exact and_congr_right fun _ => chainFilterPred_iff g b

/-- Witness for C10: with `groupId = "g1"` the "g1"-only definition is
returned, and the filter verdict matches the declarative condition. -/
theorem C10_group_filter_witness :
    (cvG1 ∈ chainHandler (some "g1") [cvG1] ↔
      cvG1 ∈ [cvG1] ∧ (lookupField cvG1 "type" ≠ some (Json.str "create_vote") ∨
        ∃ xs, lookupField cvG1 "groupIds" = some (Json.arr xs) ∧
          (Json.str "all" ∈ xs ∨ Json.str "g1" ∈ xs))) ∧
      chainHandler none [cvG1] = [cvG1] ∧
      chainHandler (some "") [cvG1] = [cvG1] :=
  C10_group_filter "g1" [cvG1] cvG1 (by decide)

end BlockChainJs
